import Mathlib

/-!
# Kiwano: `Renderer` and `Application`

A shallow embedding of `src/kiwano/render/Renderer.cpp` and of the inline
members of `src/kiwano/platform/Application.h`, together with the properties
of the runtime core that are checked against them.

Conventions of the embedding

* A C++ object is a structure of its data members; a member function is a
  function from the state before the call to the state after it.
* Calls that leave the translated code (the virtual `Resize` of the rendering
  backend, the hooks of a module, a deferred closure) are recorded in a log,
  in call order.
* A pointer or `RefPtr` is an `Option`; a function that dereferences a null
  pointer returns `none`.
* A `float` is its exact value (`CFloat`).
-/

set_option linter.dupNamespace false

namespace kiwano

/-! ## Values -/

/-- Value of the C++ type `float`: a finite value, given exactly, an infinity or a NaN. -/
inductive CFloat where
  | finite (q : ℚ)
  | inf (negative : Bool)
  | nan
  deriving DecidableEq

/-- The conversion `(uint32_t)f` of `Renderer::HandleEvent`. C++ truncates toward zero
when the truncated value fits the destination, that is for `-1 < f < 2^32`. Outside of
that range the standard leaves the conversion undefined: there the result is whatever
32-bit value the platform produces, `oor f`. -/
def CFloat.toUInt32 (oor : CFloat → Nat) : CFloat → Nat
  | .finite q =>
    if -1 < q ∧ q < 4294967296 then (Int.tdiv q.num q.den).toNat
    else oor (.finite q) % 4294967296
  | f => oor f % 4294967296

/-- The type `Size` (`Vec2T<float>`) returned by `Window::GetLogicalSize`. -/
structure Size where
  x : CFloat
  y : CFloat
  deriving DecidableEq

/-- The part of `Window` that the translated code reads: `GetLogicalSize()`. -/
structure Window where
  GetLogicalSize : Size
  deriving DecidableEq

/-- The class `WindowResizedEvent`: the code reads its member `window`, a pointer. -/
structure WindowResizedEvent where
  window : Option Window
  deriving DecidableEq

/-- An `Event` object, by dynamic type: a `WindowResizedEvent`, or an event of another
type (identified by `type`). -/
inductive Event where
  | windowResized (e : WindowResizedEvent)
  | other (type : Nat)
  deriving DecidableEq

/-- The downcast `evt->Cast<WindowResizedEvent>()`: the event itself when that is its
dynamic type, null otherwise. -/
def Event.CastWindowResized : Event → Option WindowResizedEvent
  | .windowResized e => some e
  | .other _ => none

/-- The class `EventModuleContext`, reduced to the member `evt` (a pointer) that
`Renderer::HandleEvent` reads. -/
structure EventModuleContext where
  evt : Option Event
  deriving DecidableEq

/-- The class `Color`: red, green, blue and alpha channels. -/
structure Color where
  r : CFloat
  g : CFloat
  b : CFloat
  a : CFloat
  deriving DecidableEq

/-- Modelled from the spec: the constant `Color::Black` (declared in `Color.h`, which
is outside this slice): opaque black. -/
def Color.Black : Color :=
  ⟨.finite 0, .finite 0, .finite 0, .finite 1⟩

/-! ## Renderer -/

/-- Data members of `Renderer`. -/
structure Renderer where
  vsync_ : Bool
  auto_reset_resolution_ : Bool
  clear_color_ : Color
  deriving DecidableEq

/-- One call `Resize(width, height)` of the rendering backend (a virtual member of
`Renderer`, implemented by the backend). -/
structure ResizeCall where
  width : Nat
  height : Nat
  deriving DecidableEq

/-- Modelled from the spec: the global `FontCache` (declared outside this slice), by
the fonts it currently holds. -/
structure FontCache where
  fonts : List (Nat × Nat)
  deriving DecidableEq

/-- Modelled from the spec: `FontCache::Clear` (outside this slice) clears the cache. -/
def FontCache.Clear (_c : FontCache) : FontCache :=
  ⟨[]⟩

/-- Everything a member function of `Renderer` can read or change: the renderer itself,
the singleton `FontCache::GetInstance()`, and the `Resize` calls issued so far. -/
structure RenderWorld where
  renderer : Renderer
  fontCache : FontCache
  resizeCalls : List ResizeCall
  deriving DecidableEq

/-- The constructor `Renderer::Renderer()`. -/
def Renderer.Renderer : Renderer :=
  { vsync_ := true, auto_reset_resolution_ := true, clear_color_ := Color.Black }

/-- The member `Renderer::SetClearColor`. -/
def Renderer.SetClearColor (color : Color) (w : RenderWorld) : RenderWorld :=
  { w with renderer := { w.renderer with clear_color_ := color } }

/-- The member `Renderer::SetVSyncEnabled`. -/
def Renderer.SetVSyncEnabled (enabled : Bool) (w : RenderWorld) : RenderWorld :=
  { w with renderer := { w.renderer with vsync_ := enabled } }

/-- The member `Renderer::ResetResolutionWhenWindowResized`. -/
def Renderer.ResetResolutionWhenWindowResized (enabled : Bool) (w : RenderWorld) :
    RenderWorld :=
  { w with renderer := { w.renderer with auto_reset_resolution_ := enabled } }

/-- The member `Renderer::Destroy`: `FontCache::GetInstance().Clear()`. -/
def Renderer.Destroy (w : RenderWorld) : RenderWorld :=
  { w with fontCache := w.fontCache.Clear }

/-- The virtual member `Renderer::Resize`, as seen from this file: the call is issued
to the backend. -/
def Renderer.Resize (width height : Nat) (w : RenderWorld) : RenderWorld :=
  { w with resizeCalls := w.resizeCalls ++ [⟨width, height⟩] }

/-- The member `Renderer::HandleEvent`. The result is `none` when the code dereferences
a null pointer (`ctx.evt` or `evt->window`). -/
def Renderer.HandleEvent (oor : CFloat → Nat) (w : RenderWorld) (ctx : EventModuleContext) :
    Option RenderWorld :=
  if w.renderer.auto_reset_resolution_ then
    match ctx.evt with
    | none => none
    | some e =>
      match e.CastWindowResized with
      | some evt =>
        match evt.window with
        | none => none
        | some window =>
          let size := window.GetLogicalSize
          some (Renderer.Resize (size.x.toUInt32 oor) (size.y.toUInt32 oor) w)
      | none => some w
  else
    some w

/-! ## Application -/

/-- The part of `Runner` that the translated code uses: `GetWindow()`, a `RefPtr`. -/
structure Runner where
  GetWindow : Option Window
  deriving DecidableEq

/-- The class `Timer`; none of its members is read by the code below. -/
structure Timer where
  deriving DecidableEq

/-- The type `Duration` of a frame delta. -/
abbrev Duration := Int

/-- Reference to a registered `Module` object (the list holds non-owning references);
the number identifies the object. -/
abbrev Module := Nat

/-- Object of type `Function<void()>` handed to `PerformInMainThread`; the number
identifies the closure. -/
abbrev Closure := Nat

/-- Data members of `Application`. The queue `functions_to_perform_` is listed oldest
first. The member `perform_mutex_` has no counterpart: what the code does under the
mutex (one enqueue, the swap of the drain) is one atomic step. -/
structure Application where
  running_ : Bool
  is_paused_ : Bool
  time_scale_ : CFloat
  runner_ : Option Runner
  timer_ : Option Timer
  modules_ : List Module
  functions_to_perform_ : List Closure
  deriving DecidableEq

/-- The inline member `Application::GetRunner`. -/
def Application.GetRunner (app : Application) : Option Runner :=
  app.runner_

/-- The inline member `Application::GetWindow`. -/
def Application.GetWindow (app : Application) : Option Window :=
  match app.runner_ with
  | some runner => runner.GetWindow
  | none => none

/-- The inline member `Application::IsPaused`. -/
def Application.IsPaused (app : Application) : Bool :=
  app.is_paused_

/-- A call that leaves `Application`: the private members `Update` and `Render` being
entered, a hook of a module, or a deferred closure being run. -/
inductive Invocation where
  | Update (dt : Duration)
  | Render
  | OnUpdate (m : Module) (dt : Duration)
  | OnRender (m : Module)
  | OnEvent (m : Module) (evt : Option Event)
  | Perform (func : Closure)
  deriving DecidableEq

/-- Is the entry an update hook of a module. -/
def Invocation.isOnUpdate : Invocation → Bool
  | .OnUpdate _ _ => true
  | _ => false

/-- Is the entry a render hook of a module. -/
def Invocation.isOnRender : Invocation → Bool
  | .OnRender _ => true
  | _ => false

/-- Is the entry a call of `Application::Render`. -/
def Invocation.isRender : Invocation → Bool
  | .Render => true
  | _ => false

/-- An `Application` together with the log of the invocations it has made so far. -/
structure AppWorld where
  app : Application
  log : List Invocation
  deriving DecidableEq

/-- Modelled from the spec: `Application::Pause` (defined in `Application.cpp`, outside
this slice) sets `is_paused`. -/
def Application.Pause (w : AppWorld) : AppWorld :=
  { w with app := { w.app with is_paused_ := true } }

/-- Modelled from the spec: `Application::Resume` (defined in `Application.cpp`, outside
this slice) clears `is_paused`. -/
def Application.Resume (w : AppWorld) : AppWorld :=
  { w with app := { w.app with is_paused_ := false } }

/-- Modelled from the spec: `Application::Quit` (defined in `Application.cpp`, outside
this slice) sets `running = false`. -/
def Application.Quit (w : AppWorld) : AppWorld :=
  { w with app := { w.app with running_ := false } }

/-- Modelled from the spec: `Application::Use` (defined in `Application.cpp`, outside
this slice) appends a module reference to `modules_`. -/
def Application.Use (m : Module) (w : AppWorld) : AppWorld :=
  { w with app := { w.app with modules_ := w.app.modules_ ++ [m] } }

/-- Modelled from the spec: the registration step of `Application::Run` (defined in
`Application.cpp`, outside this slice), which registers the given modules in the order
given. -/
def Application.registerModules (ms : List Module) (w : AppWorld) : AppWorld :=
  ms.foldl (fun a m => Application.Use m a) w

/-- Modelled from the spec: `Application::DispatchEvent(Event*)` (defined in
`Application.cpp`, outside this slice) delivers the event to the event hook of every
module, in insertion order, synchronously. -/
def Application.DispatchEvent (evt : Option Event) (w : AppWorld) : AppWorld :=
  { w with log := w.log ++ w.app.modules_.map (fun m => Invocation.OnEvent m evt) }

/-- Modelled from the spec: `Application::DispatchEvent(RefPtr<Event>)` (defined in
`Application.cpp`, outside this slice), the overload taking an owning reference: it
delivers the referenced event like the overload taking a raw pointer. -/
def Application.DispatchEventRef (evt : Option Event) (w : AppWorld) : AppWorld :=
  Application.DispatchEvent evt w

/-- Modelled from the spec: `Application::PerformInMainThread` (defined in
`Application.cpp`, outside this slice) appends the closure to the pending queue. -/
def Application.PerformInMainThread (func : Closure) (w : AppWorld) : AppWorld :=
  { w with app := { w.app with functions_to_perform_ := w.app.functions_to_perform_ ++ [func] } }

/-- Several `PerformInMainThread` calls, one after the other. -/
def Application.performAll (funcs : List Closure) (w : AppWorld) : AppWorld :=
  funcs.foldl (fun a f => Application.PerformInMainThread f a) w

/-- Modelled from the spec: the main thread invoking one deferred closure. The spec
allows a running closure to call back into `PerformInMainThread`; `enqueues func` lists
the closures that `func` enqueues while it runs, in order. -/
def Application.invoke (enqueues : Closure → List Closure) (w : AppWorld) (func : Closure) :
    AppWorld :=
  Application.performAll (enqueues func) { w with log := w.log ++ [Invocation.Perform func] }

/-- Modelled from the spec: the drain of the pending queue, done once per frame (part of
`Application.cpp`, outside this slice): the whole queue is swapped out, then every
swapped-out closure is invoked in enqueue order. Only the running closures enqueue
while this drain is under way; `Application.drainAmid` is the drain with the enqueue
calls of other threads as well. -/
def Application.drain (enqueues : Closure → List Closure) (w : AppWorld) : AppWorld :=
  w.app.functions_to_perform_.foldl (Application.invoke enqueues)
    { w with app := { w.app with functions_to_perform_ := [] } }

/-- Modelled from the spec: the main thread invoking one swapped-out closure, outside
the lock, while `PerformInMainThread` is being called: by the running closure itself or
by other threads. `calls` lists the closures that these calls enqueue while the closure
runs, in the order in which the mutex serialises them. -/
def Application.invokeAmid (w : AppWorld) (func : Closure) (calls : List Closure) :
    AppWorld :=
  Application.performAll calls { w with log := w.log ++ [Invocation.Perform func] }

/-- Modelled from the spec: the main thread invoking the swapped-out closures in enqueue
order; `during k` lists the closures enqueued while the closure at position `k` of the
swapped-out queue runs. -/
def Application.invokeAllAmid (during : Nat → List Closure) :
    Nat → List Closure → AppWorld → AppWorld
  | _, [], w => w
  | k, func :: rest, w =>
    Application.invokeAllAmid during (k + 1) rest (Application.invokeAmid w func (during k))

/-- Modelled from the spec: the drain of the pending queue with the enqueue calls that
happen while it is under way. The whole queue is swapped out under the mutex; then, with
the mutex released, other threads enqueue `afterSwap` before the first invocation, and
every swapped-out closure is invoked in enqueue order, `during k` being enqueued (by the
running closure or by other threads) while the closure at position `k` runs. -/
def Application.drainAmid (afterSwap : List Closure) (during : Nat → List Closure)
    (w : AppWorld) : AppWorld :=
  Application.invokeAllAmid during 0 w.app.functions_to_perform_
    (Application.performAll afterSwap
      { w with app := { w.app with functions_to_perform_ := [] } })

/-- The closures enqueued while a drain of `n` swapped-out closures is under way, in the
order of the enqueue calls. -/
def enqueuedDuring (n : Nat) (afterSwap : List Closure) (during : Nat → List Closure) :
    List Closure :=
  afterSwap ++ (List.range n).flatMap during

/-- The enqueue calls of a drain during which no other thread enqueues: the closure at
position `k` of the swapped-out queue enqueues what its behaviour `enqueues` says. -/
def ownCalls (enqueues : Closure → List Closure) (pending : List Closure) (k : Nat) :
    List Closure :=
  match pending[k]? with
  | some func => enqueues func
  | none => []

/-- Modelled from the spec: the private member `Application::Update` (defined in
`Application.cpp`, outside this slice) updates all modules, in insertion order. -/
def Application.Update (dt : Duration) (w : AppWorld) : AppWorld :=
  { w with log := w.log ++
      Invocation.Update dt :: w.app.modules_.map (fun m => Invocation.OnUpdate m dt) }

/-- Modelled from the spec: the private member `Application::Render` (defined in
`Application.cpp`, outside this slice) runs the render hook of all modules, in insertion
order. -/
def Application.Render (w : AppWorld) : AppWorld :=
  { w with log := w.log ++
      Invocation.Render :: w.app.modules_.map (fun m => Invocation.OnRender m) }

/-- Modelled from the spec: `Application::UpdateFrame` (defined in `Application.cpp`,
outside this slice) drains the main-thread work, calls `Update(dt)` unless paused, and
calls `Render()` if running. -/
def Application.UpdateFrame (enqueues : Closure → List Closure) (dt : Duration)
    (w : AppWorld) : AppWorld :=
  let w1 := Application.drain enqueues w
  let w2 := if w1.app.is_paused_ then w1 else Application.Update dt w1
  if w2.app.running_ then Application.Render w2 else w2

/-- Several `UpdateFrame` calls, one per frame delta of the list. -/
def Application.frames (enqueues : Closure → List Closure) (dts : List Duration)
    (w : AppWorld) : AppWorld :=
  dts.foldl (fun a dt => Application.UpdateFrame enqueues dt a) w

/-- The entries that one `UpdateFrame(dt)` call adds to the log, from the state before
the call: the drained closures, then the update, then the render. -/
def frameLog (dt : Duration) (w : AppWorld) : List Invocation :=
  w.app.functions_to_perform_.map Invocation.Perform
    ++ (if w.app.is_paused_ then []
        else Invocation.Update dt :: w.app.modules_.map (fun m => Invocation.OnUpdate m dt))
    ++ (if w.app.running_ then
          Invocation.Render :: w.app.modules_.map (fun m => Invocation.OnRender m)
        else [])

/-- Example of enqueue calls during a drain: closure `2` is enqueued while the first
swapped-out closure runs, nothing afterwards. -/
def sampleDuring : Nat → List Closure :=
  fun k => if k = 0 then [2] else []

/-- Example of closure behaviour: no closure enqueues anything. -/
def noRequeue : Closure → List Closure :=
  fun _ => []

/-- Example state: a running application with the modules `1` and `2` registered, one
pending closure `5`, and an empty log. -/
def sampleWorld : AppWorld :=
  { app := { running_ := true, is_paused_ := false, time_scale_ := .finite 1,
             runner_ := none, timer_ := none, modules_ := [1, 2],
             functions_to_perform_ := [5] },
    log := [] }

/-! ## Properties of the renderer -/

/-- Truncating division of numerator by denominator is the floor, for a value above `-1`. -/
theorem tdiv_toNat_eq_floor (q : ℚ) (h : -1 < q) :
    (Int.tdiv q.num q.den).toNat = Nat.floor q := by
  rcases le_or_lt 0 q with h0 | h0
  · have hn : 0 ≤ q.num := Rat.num_nonneg.mpr h0
    rw [Int.tdiv_eq_ediv hn (by positivity), ← Rat.floor_def, Int.floor_toNat]
  · rw [Nat.floor_of_nonpos h0.le]
    have hn : q.num < 0 := Rat.num_neg.mpr h0
    have hd : (0 : ℚ) < q.den := by exact_mod_cast q.den_pos
    have hlt : -(q.den : ℤ) < q.num := by
      have h1 : -(q.den : ℚ) < q.num := by
        have h2 := Rat.num_div_den q
        rw [← h2, lt_div_iff₀ hd] at h
        linarith
      exact_mod_cast h1
    have hz : Int.tdiv q.num q.den = 0 := by
      obtain ⟨n, hn2⟩ : ∃ n : ℕ, q.num = -(n : ℤ) := ⟨q.num.natAbs, by omega⟩
      rw [hn2] at hlt ⊢
      rw [Int.neg_tdiv, Int.tdiv_eq_ediv (by positivity) (by positivity)]
      have hq : (n : ℤ) / (q.den : ℤ) = 0 :=
        Int.ediv_eq_zero_of_lt (by positivity) (by omega)
      rw [hq]; rfl
    rw [hz]; rfl

/-- Inside the range where the conversion is defined, `(uint32_t)f` is the floor of `f`
(for `-1 < f < 0` that is `0`), whatever the platform does outside of it. -/
theorem toUInt32_in_range (oor : CFloat → Nat) (q : ℚ) (h1 : -1 < q) (h2 : q < 2 ^ 32) :
    (CFloat.finite q).toUInt32 oor = Nat.floor q := by
  have h3 : q < 4294967296 := by norm_num at h2; exact h2
  simp only [CFloat.toUInt32, h1, h3, and_self, if_true]
  exact tdiv_toNat_eq_floor q h1

/-- With auto-reset on, a resize event with a window issues one `Resize` call, with the
converted logical size. -/
theorem HandleEvent_windowResized (oor : CFloat → Nat) (w : RenderWorld) (window : Window)
    (hauto : w.renderer.auto_reset_resolution_ = true) :
    Renderer.HandleEvent oor w ⟨some (.windowResized ⟨some window⟩)⟩
      = some { w with resizeCalls := w.resizeCalls ++
          [⟨window.GetLogicalSize.x.toUInt32 oor, window.GetLogicalSize.y.toUInt32 oor⟩] } := by
  simp [Renderer.HandleEvent, hauto, Event.CastWindowResized, Renderer.Resize]

/-- The floor of 800.6 is 800. -/
theorem floor_800_6 : Nat.floor (4003 / 5 : ℚ) = 800 := by
  rw [Nat.floor_eq_iff (by norm_num)]; norm_num

/-- The floor of 600.2 is 600. -/
theorem floor_600_2 : Nat.floor (3001 / 5 : ℚ) = 600 := by
  rw [Nat.floor_eq_iff (by norm_num)]; norm_num

/-- C1: for every renderer state with `auto_reset_resolution` enabled and every
`WindowResizedEvent` whose window reports a logical size `(x, y)` with
`0 ≤ x, y < 2^32`, `Renderer::HandleEvent` issues exactly one backend `Resize` call, with
width the truncation of `x` and height the truncation of `y`, and changes nothing else. -/
theorem HandleEvent_resizes_to_truncated_size (oor : CFloat → Nat) (w : RenderWorld)
    (window : Window) (x y : ℚ)
    (hauto : w.renderer.auto_reset_resolution_ = true)
    (hsize : window.GetLogicalSize = ⟨.finite x, .finite y⟩)
    (hx : 0 ≤ x ∧ x < 2 ^ 32) (hy : 0 ≤ y ∧ y < 2 ^ 32) :
    Renderer.HandleEvent oor w ⟨some (.windowResized ⟨some window⟩)⟩
      = some { w with resizeCalls := w.resizeCalls ++ [⟨Nat.floor x, Nat.floor y⟩] } := by
  rw [HandleEvent_windowResized oor w window hauto, hsize]
  simp only []
  rw [toUInt32_in_range oor x (by linarith [hx.1]) hx.2,
    toUInt32_in_range oor y (by linarith [hy.1]) hy.2]

/-- C1, at the logical size (800.6, 600.2): the call is `Resize(800, 600)`. -/
theorem HandleEvent_resizes_to_truncated_size_witness :
    Renderer.HandleEvent (fun _ => 0) ⟨Renderer.Renderer, ⟨[(1, 2)]⟩, []⟩
        ⟨some (.windowResized ⟨some ⟨⟨.finite (4003 / 5), .finite (3001 / 5)⟩⟩⟩)⟩
      = some ⟨Renderer.Renderer, ⟨[(1, 2)]⟩, [⟨800, 600⟩]⟩ := by
  have h := HandleEvent_resizes_to_truncated_size (fun _ => 0)
    ⟨Renderer.Renderer, ⟨[(1, 2)]⟩, []⟩ ⟨⟨.finite (4003 / 5), .finite (3001 / 5)⟩⟩
    (4003 / 5) (3001 / 5) rfl rfl (by norm_num) (by norm_num)
  rw [floor_800_6, floor_600_2] at h
  exact h

/-- C2: after `ResetResolutionWhenWindowResized(false)`, `Renderer::HandleEvent` issues
no `Resize` call whatever the event (the state, with its list of `Resize` calls, is
returned as it is); after `ResetResolutionWhenWindowResized(true)`, a
`WindowResizedEvent` of any size issues one `Resize` call. -/
theorem ResetResolutionWhenWindowResized_takes_effect (oor : CFloat → Nat) (w : RenderWorld) :
    (∀ ctx : EventModuleContext,
      Renderer.HandleEvent oor (Renderer.ResetResolutionWhenWindowResized false w) ctx
        = some (Renderer.ResetResolutionWhenWindowResized false w)
      ∧ (Renderer.ResetResolutionWhenWindowResized false w).resizeCalls = w.resizeCalls)
    ∧ (∀ window : Window,
      Renderer.HandleEvent oor (Renderer.ResetResolutionWhenWindowResized true w)
          ⟨some (.windowResized ⟨some window⟩)⟩
        = some { Renderer.ResetResolutionWhenWindowResized true w with
            resizeCalls := w.resizeCalls ++
              [⟨window.GetLogicalSize.x.toUInt32 oor,
                window.GetLogicalSize.y.toUInt32 oor⟩] }) := by
  refine ⟨fun ctx => ⟨?_, rfl⟩, fun window => ?_⟩
  · simp [Renderer.HandleEvent, Renderer.ResetResolutionWhenWindowResized]
  · rw [HandleEvent_windowResized oor _ window rfl]
    rfl

/-- C3: for every renderer state and every event whose downcast to `WindowResizedEvent`
is null, `Renderer::HandleEvent` returns the state as it is: no `Resize` call, and
`vsync`, `auto_reset_resolution` and `clear_color` unchanged. -/
theorem HandleEvent_ignores_other_events (oor : CFloat → Nat) (w : RenderWorld) (e : Event)
    (h : e.CastWindowResized = none) :
    Renderer.HandleEvent oor w ⟨some e⟩ = some w := by
  unfold Renderer.HandleEvent
  split
  · simp only [h]
  · rfl

/-- C3, at an event of another type, with auto-reset on. -/
theorem HandleEvent_ignores_other_events_witness :
    Renderer.HandleEvent (fun _ => 0) ⟨Renderer.Renderer, ⟨[]⟩, [⟨1, 1⟩]⟩ ⟨some (.other 7)⟩
      = some ⟨Renderer.Renderer, ⟨[]⟩, [⟨1, 1⟩]⟩ :=
  HandleEvent_ignores_other_events (fun _ => 0) ⟨Renderer.Renderer, ⟨[]⟩, [⟨1, 1⟩]⟩
    (.other 7) rfl

/-- C5: each of the three setters stores its argument in its own member and leaves the
two other members, the `Resize` calls and the font cache as they were. -/
theorem setters_only_store (w : RenderWorld) (c : Color) (b : Bool) :
    Renderer.SetClearColor c w
        = ⟨⟨w.renderer.vsync_, w.renderer.auto_reset_resolution_, c⟩,
            w.fontCache, w.resizeCalls⟩
    ∧ Renderer.SetVSyncEnabled b w
        = ⟨⟨b, w.renderer.auto_reset_resolution_, w.renderer.clear_color_⟩,
            w.fontCache, w.resizeCalls⟩
    ∧ Renderer.ResetResolutionWhenWindowResized b w
        = ⟨⟨w.renderer.vsync_, b, w.renderer.clear_color_⟩,
            w.fontCache, w.resizeCalls⟩ :=
  ⟨rfl, rfl, rfl⟩

/-- C6: `Renderer::Destroy` leaves the global font cache empty, whatever it held;
calling it twice gives the same state as calling it once, and on an empty cache it
changes nothing. -/
theorem Destroy_clears_font_cache (w : RenderWorld) :
    (Renderer.Destroy w).fontCache.fonts = []
    ∧ Renderer.Destroy (Renderer.Destroy w) = Renderer.Destroy w
    ∧ (w.fontCache.fonts = [] → Renderer.Destroy w = w) := by
  refine ⟨rfl, rfl, fun h => ?_⟩
  obtain ⟨r, ⟨fonts⟩, calls⟩ := w
  simp only at h
  subst h
  rfl

/-- C6, at a cache holding two fonts and at the empty cache. -/
theorem Destroy_clears_font_cache_witness :
    (Renderer.Destroy ⟨Renderer.Renderer, ⟨[(1, 10), (2, 20)]⟩, []⟩).fontCache.fonts = []
    ∧ Renderer.Destroy ⟨Renderer.Renderer, ⟨[]⟩, []⟩ = ⟨Renderer.Renderer, ⟨[]⟩, []⟩ :=
  ⟨(Destroy_clears_font_cache ⟨Renderer.Renderer, ⟨[(1, 10), (2, 20)]⟩, []⟩).1,
    (Destroy_clears_font_cache ⟨Renderer.Renderer, ⟨[]⟩, []⟩).2.2 rfl⟩

/-- C10: a freshly constructed renderer has vsync on, auto-reset on and a black clear
colour; with no setter called, `HandleEvent` on a `WindowResizedEvent` issues one
`Resize` call, and for a logical size `(x, y)` in the range of the conversion
(`-1 < x, y < 2^32`) the call carries the truncated size. -/
theorem fresh_Renderer_resizes :
    Renderer.Renderer.vsync_ = true
    ∧ Renderer.Renderer.auto_reset_resolution_ = true
    ∧ Renderer.Renderer.clear_color_ = Color.Black
    ∧ (∀ (oor : CFloat → Nat) (fc : FontCache) (calls : List ResizeCall) (window : Window),
        ∃ width height : Nat,
          Renderer.HandleEvent oor ⟨Renderer.Renderer, fc, calls⟩
              ⟨some (.windowResized ⟨some window⟩)⟩
            = some ⟨Renderer.Renderer, fc, calls ++ [⟨width, height⟩]⟩)
    ∧ (∀ (oor : CFloat → Nat) (fc : FontCache) (calls : List ResizeCall) (window : Window)
        (x y : ℚ), window.GetLogicalSize = ⟨.finite x, .finite y⟩ →
        (-1 < x ∧ x < 2 ^ 32) → (-1 < y ∧ y < 2 ^ 32) →
          Renderer.HandleEvent oor ⟨Renderer.Renderer, fc, calls⟩
              ⟨some (.windowResized ⟨some window⟩)⟩
            = some ⟨Renderer.Renderer, fc, calls ++ [⟨Nat.floor x, Nat.floor y⟩]⟩) := by
  refine ⟨rfl, rfl, rfl, ?_, ?_⟩
  · intro oor fc calls window
    exact ⟨_, _, HandleEvent_windowResized oor ⟨Renderer.Renderer, fc, calls⟩ window rfl⟩
  · intro oor fc calls window x y hsize hx hy
    rw [HandleEvent_windowResized oor ⟨Renderer.Renderer, fc, calls⟩ window rfl, hsize]
    simp only []
    rw [toUInt32_in_range oor x hx.1 hx.2, toUInt32_in_range oor y hy.1 hy.2]

/-- C10, at the logical size (800.6, 600.2): the fresh renderer calls `Resize(800, 600)`. -/
theorem fresh_Renderer_resizes_witness :
    Renderer.HandleEvent (fun _ => 0) ⟨Renderer.Renderer, ⟨[]⟩, []⟩
        ⟨some (.windowResized ⟨some ⟨⟨.finite (4003 / 5), .finite (3001 / 5)⟩⟩⟩)⟩
      = some ⟨Renderer.Renderer, ⟨[]⟩, [] ++ [⟨800, 600⟩]⟩ := by
  have h := fresh_Renderer_resizes.2.2.2.2 (fun _ => 0) ⟨[]⟩ []
    ⟨⟨.finite (4003 / 5), .finite (3001 / 5)⟩⟩ (4003 / 5) (3001 / 5) rfl
    (by norm_num) (by norm_num)
  rw [floor_800_6, floor_600_2] at h
  exact h

/-! ## Properties of the application -/

/-- Enqueuing a list of closures appends it to the pending queue and changes nothing else. -/
theorem performAll_eq (funcs : List Closure) (w : AppWorld) :
    Application.performAll funcs w
      = { w with app := { w.app with
            functions_to_perform_ := w.app.functions_to_perform_ ++ funcs } } := by
  induction funcs generalizing w with
  | nil => simp [Application.performAll]
  | cons f fs ih =>
    have h := ih (Application.PerformInMainThread f w)
    simp only [Application.performAll, List.foldl_cons] at h ⊢
    rw [h]
    simp [Application.PerformInMainThread]

/-- Invoking the swapped-out closures logs them in order and queues what they enqueue. -/
theorem foldl_invoke_eq (enqueues : Closure → List Closure) (funcs : List Closure)
    (w : AppWorld) :
    funcs.foldl (Application.invoke enqueues) w
      = { app := { w.app with functions_to_perform_ :=
            w.app.functions_to_perform_ ++ funcs.flatMap enqueues },
          log := w.log ++ funcs.map Invocation.Perform } := by
  induction funcs generalizing w with
  | nil => simp
  | cons f fs ih =>
    rw [List.foldl_cons, ih]
    simp [Application.invoke, performAll_eq]

/-- The drain in closed form. -/
theorem drain_eq (enqueues : Closure → List Closure) (w : AppWorld) :
    Application.drain enqueues w
      = { app := { w.app with functions_to_perform_ :=
            w.app.functions_to_perform_.flatMap enqueues },
          log := w.log ++ w.app.functions_to_perform_.map Invocation.Perform } := by
  simp [Application.drain, foldl_invoke_eq]



/-- One frame in closed form. -/
theorem UpdateFrame_eq (enqueues : Closure → List Closure) (dt : Duration) (w : AppWorld) :
    Application.UpdateFrame enqueues dt w
      = { app := { w.app with functions_to_perform_ :=
            w.app.functions_to_perform_.flatMap enqueues },
          log := w.log ++ frameLog dt w } := by
  unfold Application.UpdateFrame frameLog
  rw [drain_eq]
  cases hp : w.app.is_paused_ <;> cases hr : w.app.running_ <;>
    simp [Application.Update, Application.Render, hp, hr]

/-- A frame of a paused application runs no update hook. -/
theorem frameLog_onUpdate_paused (dt : Duration) (w : AppWorld) (hp : w.app.is_paused_ = true) :
    (frameLog dt w).filter Invocation.isOnUpdate = [] := by
  simp [frameLog, hp, List.filter_eq_nil_iff, Invocation.isOnUpdate]
  rintro a - (h | ⟨m, -, h⟩) <;> subst h <;> rfl

/-- A frame of an application that is not paused runs the update hook of every module. -/
theorem frameLog_onUpdate_resumed (dt : Duration) (w : AppWorld) (hp : w.app.is_paused_ = false) :
    (frameLog dt w).filter Invocation.isOnUpdate
      = w.app.modules_.map (fun m => Invocation.OnUpdate m dt) := by
  have h1 : (w.app.functions_to_perform_.map Invocation.Perform).filter Invocation.isOnUpdate
      = [] := by
    simp [List.filter_eq_nil_iff, Invocation.isOnUpdate]
  have h2 : (w.app.modules_.map (fun m => Invocation.OnUpdate m dt)).filter
      Invocation.isOnUpdate = w.app.modules_.map (fun m => Invocation.OnUpdate m dt) := by
    simp [List.filter_eq_self, Invocation.isOnUpdate]
  have h3 : (if w.app.running_ then
          Invocation.Render :: w.app.modules_.map (fun m => Invocation.OnRender m)
        else []).filter Invocation.isOnUpdate = [] := by
    split <;> simp [List.filter_eq_nil_iff, Invocation.isOnUpdate]
  simp only [frameLog, hp, List.filter_append, h1, h3, Bool.false_eq_true, if_false,
    List.filter_cons, Invocation.isOnUpdate, h2, List.nil_append, List.append_nil]

/-- A frame of a running application calls `Render` once, and with it the render hook of
every module. -/
theorem frameLog_render (dt : Duration) (w : AppWorld) (hr : w.app.running_ = true) :
    ((frameLog dt w).filter Invocation.isRender).length = 1
    ∧ ((frameLog dt w).filter Invocation.isOnRender).length
        = w.app.modules_.length := by
  have h1 : ∀ p : Invocation → Bool, (∀ f, p (Invocation.Perform f) = false) →
      (w.app.functions_to_perform_.map Invocation.Perform).filter p = [] := by
    intro p hp; simp [List.filter_eq_nil_iff, hp]
  have h2 : ∀ p : Invocation → Bool, p (Invocation.Update dt) = false →
      (∀ m, p (Invocation.OnUpdate m dt) = false) →
      (if w.app.is_paused_ then []
        else Invocation.Update dt ::
          w.app.modules_.map (fun m => Invocation.OnUpdate m dt)).filter p = [] := by
    intro p hp hq; split <;> simp [List.filter_eq_nil_iff, hp, hq]
  constructor
  · simp only [frameLog, hr, if_true, List.filter_append,
      h1 Invocation.isRender (fun _ => rfl), h2 Invocation.isRender rfl (fun _ => rfl)]
    have : (w.app.modules_.map (fun m => Invocation.OnRender m)).filter Invocation.isRender
        = [] := by simp [List.filter_eq_nil_iff, Invocation.isRender]
    simp [List.filter_cons, Invocation.isRender, this]
  · simp only [frameLog, hr, if_true, List.filter_append,
      h1 Invocation.isOnRender (fun _ => rfl), h2 Invocation.isOnRender rfl (fun _ => rfl)]
    have : (w.app.modules_.map (fun m => Invocation.OnRender m)).filter Invocation.isOnRender
        = w.app.modules_.map (fun m => Invocation.OnRender m) := by
      simp [List.filter_eq_self, Invocation.isOnRender]
    simp [List.filter_cons, Invocation.isOnRender, this]



/-- Any number of frames: the flags and the module list stay as they are, the log only
grows; while paused no update hook runs, and while running every frame renders once. -/
theorem frames_spec (enqueues : Closure → List Closure) (dts : List Duration) (w : AppWorld) :
    ∃ delta : List Invocation,
      (Application.frames enqueues dts w).log = w.log ++ delta
      ∧ (Application.frames enqueues dts w).app.running_ = w.app.running_
      ∧ (Application.frames enqueues dts w).app.is_paused_ = w.app.is_paused_
      ∧ (Application.frames enqueues dts w).app.modules_ = w.app.modules_
      ∧ (w.app.is_paused_ = true → delta.filter Invocation.isOnUpdate = [])
      ∧ (w.app.running_ = true →
          (delta.filter Invocation.isRender).length = dts.length
          ∧ (delta.filter Invocation.isOnRender).length
              = dts.length * w.app.modules_.length) := by
  induction dts generalizing w with
  | nil => exact ⟨[], by simp [Application.frames]⟩
  | cons dt dts ih =>
    obtain ⟨delta, hlog, hrun, hpause, hmod, hupd, hren⟩ :=
      ih (Application.UpdateFrame enqueues dt w)
    have hstep : Application.frames enqueues (dt :: dts) w
        = Application.frames enqueues dts (Application.UpdateFrame enqueues dt w) := rfl
    rw [UpdateFrame_eq] at hlog hrun hpause hmod hupd hren
    simp only at hlog hrun hpause hmod hupd hren
    refine ⟨frameLog dt w ++ delta, ?_, ?_, ?_, ?_, ?_, ?_⟩
    · rw [hstep, UpdateFrame_eq, hlog, List.append_assoc]
    · rw [hstep, UpdateFrame_eq, hrun]
    · rw [hstep, UpdateFrame_eq, hpause]
    · rw [hstep, UpdateFrame_eq, hmod]
    · intro hp
      rw [List.filter_append, frameLog_onUpdate_paused dt w hp, hupd hp]
      rfl
    · intro hr
      obtain ⟨h1, h2⟩ := hren hr
      obtain ⟨h3, h4⟩ := frameLog_render dt w hr
      simp only [List.filter_append, List.length_append, h1, h2, h3, h4, List.length_cons]
      constructor
      · omega
      · rw [Nat.add_mul, Nat.one_mul, Nat.add_comm]

/-- C4: with an empty runner reference, `GetRunner()` and `GetWindow()` both return an
empty reference; with a runner, `GetRunner()` returns it and `GetWindow()` returns what
the `GetWindow()` of that runner returns. -/
theorem GetRunner_GetWindow (app : Application) :
    (app.runner_ = none → app.GetRunner = none ∧ app.GetWindow = none)
    ∧ (∀ runner : Runner, app.runner_ = some runner →
        app.GetRunner = some runner ∧ app.GetWindow = runner.GetWindow) := by
  constructor
  · intro h
    simp [Application.GetRunner, Application.GetWindow, h]
  · intro runner h
    simp [Application.GetRunner, Application.GetWindow, h]

/-- C4, at an application without runner and at one whose runner owns a window. -/
theorem GetRunner_GetWindow_witness :
    (Application.GetRunner ⟨false, false, .finite 1, none, none, [], []⟩ = none
      ∧ Application.GetWindow ⟨false, false, .finite 1, none, none, [], []⟩ = none)
    ∧ (Application.GetRunner
          ⟨true, false, .finite 1, some ⟨some ⟨⟨.finite 640, .finite 480⟩⟩⟩, none, [], []⟩
        = some ⟨some ⟨⟨.finite 640, .finite 480⟩⟩⟩
      ∧ Application.GetWindow
          ⟨true, false, .finite 1, some ⟨some ⟨⟨.finite 640, .finite 480⟩⟩⟩, none, [], []⟩
        = some ⟨⟨.finite 640, .finite 480⟩⟩) :=
  ⟨(GetRunner_GetWindow ⟨false, false, .finite 1, none, none, [], []⟩).1 rfl,
    (GetRunner_GetWindow
      ⟨true, false, .finite 1, some ⟨some ⟨⟨.finite 640, .finite 480⟩⟩⟩, none, [], []⟩).2
      ⟨some ⟨⟨.finite 640, .finite 480⟩⟩⟩ rfl⟩

/-- C7: for a running application with any modules and any pending closures, `Pause()`
followed by `N` `UpdateFrame` calls runs no update hook of a module and calls `Render`
`N` times (the render hook of every module `N` times), `running` stays true and
`IsPaused()` is true after every one of these frames; after `Resume()`, `IsPaused()` is
false and every further `UpdateFrame(dt)` runs the update hook of every module once, in
registration order. -/
theorem Pause_skips_Update_not_Render (enqueues : Closure → List Closure) (w : AppWorld)
    (dts : List Duration) (hrun : w.app.running_ = true) :
    (∀ k : Nat,
      (Application.frames enqueues (dts.take k) (Application.Pause w)).app.IsPaused = true
      ∧ (Application.frames enqueues (dts.take k) (Application.Pause w)).app.running_ = true)
    ∧ (∃ delta : List Invocation,
        (Application.frames enqueues dts (Application.Pause w)).log = w.log ++ delta
        ∧ delta.filter Invocation.isOnUpdate = []
        ∧ (delta.filter Invocation.isRender).length = dts.length
        ∧ (delta.filter Invocation.isOnRender).length = dts.length * w.app.modules_.length)
    ∧ (Application.Resume
        (Application.frames enqueues dts (Application.Pause w))).app.IsPaused = false
    ∧ (∀ (dts2 : List Duration) (dt : Duration), ∃ delta : List Invocation,
        (Application.UpdateFrame enqueues dt (Application.frames enqueues dts2
          (Application.Resume (Application.frames enqueues dts (Application.Pause w))))).log
          = (Application.frames enqueues dts2
              (Application.Resume
                (Application.frames enqueues dts (Application.Pause w)))).log ++ delta
        ∧ delta.filter Invocation.isOnUpdate
            = w.app.modules_.map (fun m => Invocation.OnUpdate m dt)) := by
  have hrunP : (Application.Pause w).app.running_ = true := hrun
  refine ⟨fun k => ?_, ?_, rfl, fun dts2 dt => ?_⟩
  · obtain ⟨_, _, h2, h3, _⟩ := frames_spec enqueues (dts.take k) (Application.Pause w)
    exact ⟨h3, h2.trans hrunP⟩
  · obtain ⟨delta, h1, _, _, _, h5, h6⟩ := frames_spec enqueues dts (Application.Pause w)
    exact ⟨delta, h1, h5 rfl, (h6 hrunP).1, (h6 hrunP).2⟩
  · obtain ⟨_, _, _, _, hm1, _⟩ := frames_spec enqueues dts (Application.Pause w)
    obtain ⟨_, _, _, hp2, hm2, _⟩ := frames_spec enqueues dts2
      (Application.Resume (Application.frames enqueues dts (Application.Pause w)))
    refine ⟨frameLog dt _, by rw [UpdateFrame_eq], ?_⟩
    rw [frameLog_onUpdate_resumed dt _ hp2, hm2]
    show List.map _ (Application.frames enqueues dts (Application.Pause w)).app.modules_ = _
    rw [hm1]
    rfl


/-- C7, at the example state and two frames: the hypothesis holds there, the two frames
log the drained closure and two renders, and no update. -/
theorem Pause_skips_Update_not_Render_witness :
    sampleWorld.app.running_ = true
    ∧ (Application.frames noRequeue [16, 17] (Application.Pause sampleWorld)).log
        = [.Perform 5, .Render, .OnRender 1, .OnRender 2, .Render, .OnRender 1, .OnRender 2]
    ∧ (∃ delta : List Invocation,
        (Application.frames noRequeue [16, 17] (Application.Pause sampleWorld)).log
          = sampleWorld.log ++ delta
        ∧ delta.filter Invocation.isOnUpdate = []
        ∧ (delta.filter Invocation.isRender).length = [(16 : Duration), 17].length
        ∧ (delta.filter Invocation.isOnRender).length
            = [(16 : Duration), 17].length * sampleWorld.app.modules_.length) :=
  ⟨rfl, rfl, (Pause_skips_Update_not_Render noRequeue sampleWorld [16, 17] rfl).2.1⟩

/-- Registering a list of modules appends it to the module list and changes nothing else. -/
theorem registerModules_eq (ms : List Module) (w : AppWorld) :
    Application.registerModules ms w
      = { w with app := { w.app with modules_ := w.app.modules_ ++ ms } } := by
  induction ms generalizing w with
  | nil => simp [Application.registerModules]
  | cons m ms ih =>
    have h := ih (Application.Use m w)
    simp only [Application.registerModules, List.foldl_cons] at h ⊢
    rw [h]
    simp [Application.Use]

/-- Invoking swapped-out closures amid enqueue calls logs the closures in order and
queues what is enqueued meanwhile. -/
theorem invokeAllAmid_eq (during : Nat → List Closure) (funcs : List Closure) (k : Nat)
    (w : AppWorld) :
    Application.invokeAllAmid during k funcs w
      = { app := { w.app with functions_to_perform_ :=
            w.app.functions_to_perform_
              ++ (List.range funcs.length).flatMap (fun i => during (k + i)) },
          log := w.log ++ funcs.map Invocation.Perform } := by
  induction funcs generalizing k w with
  | nil => simp [Application.invokeAllAmid]
  | cons f fs ih =>
    rw [Application.invokeAllAmid, ih]
    simp only [Application.invokeAmid, performAll_eq, List.length_cons,
      List.range_succ_eq_map, List.flatMap_cons, List.flatMap_map, List.map_cons,
      List.append_assoc, List.singleton_append, Nat.add_zero]
    have h : ∀ i : Nat, k + 1 + i = k + i.succ := fun i => by omega
    simp only [h]

/-- The drain amid enqueue calls, in closed form. -/
theorem drainAmid_eq (afterSwap : List Closure) (during : Nat → List Closure) (w : AppWorld) :
    Application.drainAmid afterSwap during w
      = { app := { w.app with functions_to_perform_ :=
            (enqueuedDuring (w.app.functions_to_perform_.length) afterSwap during) },
          log := w.log ++ w.app.functions_to_perform_.map Invocation.Perform } := by
  simp [Application.drainAmid, invokeAllAmid_eq, performAll_eq, enqueuedDuring]

/-- What the closures of a queue enqueue, position by position. -/
theorem flatMap_ownCalls (enqueues : Closure → List Closure) (pending : List Closure) :
    (List.range pending.length).flatMap (ownCalls enqueues pending)
      = pending.flatMap enqueues := by
  induction pending with
  | nil => simp
  | cons f fs ih =>
    rw [List.length_cons, List.range_succ_eq_map, List.flatMap_cons, List.flatMap_map,
      List.flatMap_cons, ← ih]
    have h0 : ownCalls enqueues (f :: fs) 0 = enqueues f := by simp [ownCalls]
    have hs : (fun a : Nat => ownCalls enqueues (f :: fs) a.succ) = ownCalls enqueues fs := by
      funext a
      simp [ownCalls]
    rw [h0, hs]

/-- The drain during which only the running closures enqueue is the drain amid their own
enqueue calls. -/
theorem drain_eq_drainAmid (enqueues : Closure → List Closure) (w : AppWorld) :
    Application.drain enqueues w
      = Application.drainAmid [] (ownCalls enqueues w.app.functions_to_perform_) w := by
  rw [drain_eq, drainAmid_eq]
  simp only [enqueuedDuring, flatMap_ownCalls, List.nil_append]

/-- C8: closures enqueued with `PerformInMainThread` before a drain are not run by the
enqueue calls (the log is as before, the queue has grown at its end); the drain, whatever
is enqueued while it is under way, runs exactly the closures pending at its swap, in
enqueue order, each once; afterwards none of them is pending any more, the queue holds the
closures enqueued during the drain and is empty when there were none; a closure enqueued
during the drain, by a running closure or by another thread, is pending after the drain
and the next drain runs it. -/
theorem drain_runs_pending_in_order (w : AppWorld) (funcs : List Closure)
    (afterSwap : List Closure) (during : Nat → List Closure) :
    (Application.performAll funcs w).log = w.log
    ∧ (Application.performAll funcs w).app.functions_to_perform_
        = w.app.functions_to_perform_ ++ funcs
    ∧ (Application.drainAmid afterSwap during (Application.performAll funcs w)).log
        = w.log ++ (w.app.functions_to_perform_ ++ funcs).map Invocation.Perform
    ∧ (Application.drainAmid afterSwap during
          (Application.performAll funcs w)).app.functions_to_perform_
        = enqueuedDuring (w.app.functions_to_perform_ ++ funcs).length afterSwap during
    ∧ (afterSwap = [] →
        (∀ k, k < (w.app.functions_to_perform_ ++ funcs).length → during k = []) →
        (Application.drainAmid afterSwap during
          (Application.performAll funcs w)).app.functions_to_perform_ = [])
    ∧ (∀ (k : Nat) (g : Closure), k < (w.app.functions_to_perform_ ++ funcs).length →
        g ∈ during k →
        g ∈ (Application.drainAmid afterSwap during
              (Application.performAll funcs w)).app.functions_to_perform_)
    ∧ (∀ (afterSwap2 : List Closure) (during2 : Nat → List Closure),
        (Application.drainAmid afterSwap2 during2
          (Application.drainAmid afterSwap during (Application.performAll funcs w))).log
        = (Application.drainAmid afterSwap during (Application.performAll funcs w)).log
          ++ (enqueuedDuring (w.app.functions_to_perform_ ++ funcs).length afterSwap
                during).map Invocation.Perform) := by
  have hq : (Application.drainAmid afterSwap during
      (Application.performAll funcs w)).app.functions_to_perform_
      = enqueuedDuring (w.app.functions_to_perform_ ++ funcs).length afterSwap during := by
    rw [drainAmid_eq, performAll_eq]
  refine ⟨?_, ?_, ?_, hq, ?_, ?_, ?_⟩
  · rw [performAll_eq]
  · rw [performAll_eq]
  · rw [drainAmid_eq, performAll_eq]
  · intro h0 hk
    rw [hq]
    simp only [enqueuedDuring, h0, List.nil_append, List.flatMap_eq_nil_iff]
    intro k hmem
    exact hk k (List.mem_range.mp hmem)
  · intro k g hk hg
    rw [hq]
    unfold enqueuedDuring
    exact List.mem_append_right _ (List.mem_flatMap.mpr ⟨k, List.mem_range.mpr hk, hg⟩)
  · intro afterSwap2 during2
    rw [drainAmid_eq afterSwap2 during2, hq]

/-- C8, at the example state. With nothing enqueued during the drain, the pending closure
`5` and the closures `6` and `7` enqueued after it run in that order and the queue is
empty afterwards. With `9` enqueued by another thread right after the swap and `2`
enqueued while `5` runs, the drain runs `5` alone, `2` is pending afterwards, and the next
drain runs `9` and `2`. -/
theorem drain_runs_pending_in_order_witness :
    (Application.drainAmid [] (fun _ => []) (Application.performAll [6, 7] sampleWorld)).log
      = sampleWorld.log ++ ([5] ++ [6, 7]).map Invocation.Perform
    ∧ (Application.drainAmid [] (fun _ => [])
        (Application.performAll [6, 7] sampleWorld)).app.functions_to_perform_ = []
    ∧ (Application.drainAmid [9] sampleDuring sampleWorld).log = [.Perform 5]
    ∧ 2 ∈ (Application.drainAmid [9] sampleDuring
            (Application.performAll [] sampleWorld)).app.functions_to_perform_
    ∧ (Application.drainAmid [] (fun _ => [])
        (Application.drainAmid [9] sampleDuring sampleWorld)).log
      = [.Perform 5, .Perform 9, .Perform 2] :=
  ⟨(drain_runs_pending_in_order sampleWorld [6, 7] [] (fun _ => [])).2.2.1,
    (drain_runs_pending_in_order sampleWorld [6, 7] [] (fun _ => [])).2.2.2.2.1 rfl
      (fun _ _ => rfl),
    rfl,
    (drain_runs_pending_in_order sampleWorld [] [9] sampleDuring).2.2.2.2.2.1 0 2
      (by decide) (by decide),
    rfl⟩

/-- C9: with the modules `ms` registered (after those registered before), in that order,
`DispatchEvent` runs the event hook of every registered module once, in registration
order, before it returns, and changes nothing else; the overload taking an owning
reference does the same as the overload taking a raw pointer. -/
theorem DispatchEvent_delivers_in_order (w : AppWorld) (ms : List Module) (evt : Event) :
    (Application.registerModules ms w).app.modules_ = w.app.modules_ ++ ms
    ∧ (Application.DispatchEvent (some evt) (Application.registerModules ms w)).log
        = w.log ++ (w.app.modules_ ++ ms).map (fun m => Invocation.OnEvent m (some evt))
    ∧ (Application.DispatchEvent (some evt) (Application.registerModules ms w)).app
        = (Application.registerModules ms w).app
    ∧ Application.DispatchEventRef (some evt) (Application.registerModules ms w)
        = Application.DispatchEvent (some evt) (Application.registerModules ms w) := by
  refine ⟨?_, ?_, rfl, rfl⟩
  · rw [registerModules_eq]
  · rw [registerModules_eq]
    rfl

end kiwano
